import Mathlib

set_option maxHeartbeats 1600000

namespace SparksTools

/-!
Shallow embedding of the StatsVine/sparks-tools sources:
`src/crosswalk/validate_csv.py`, `src/crosswalk/build_crosswalk_dist.py`,
and `src/registry/calc_haversine.py`.

A Python dict produced by `csv.DictReader` is modelled as an ordered
association list of string keys and string values.  File reading, YAML
parsing and the CLI layer are external collaborators; the validator is
given the schema mapping and the list of data rows directly, and reference
CSV files are provided through an abstract filesystem map.
-/

/-- One CSV data row: a Python dict from field name to string value. -/
abbrev Row := List (String × String)

/-- Python `row.get(k)`: `none` when the key is absent. -/
def getOpt (row : Row) (k : String) : Option String :=
  (row.find? (fun p => p.1 == k)).map (fun p => p.2)

/-- Python `row.get(k, d)`. -/
def getD (row : Row) (k d : String) : String := (getOpt row k).getD d

/-- Python truthiness of an optional string (`None` and `""` are falsy). -/
def truthy : Option String → Bool
  | none => false
  | some s => s != ""

/-- Character list of Python `value.strip()` (whitespace removed from both
ends); written over the character list so that it reduces structurally. -/
def strip (s : String) : List Char :=
  ((s.data.dropWhile Char.isWhitespace).reverse.dropWhile Char.isWhitespace).reverse

/-- Python string `<` on character lists: lexicographic by code point,
with a proper prefix ordered first. -/
def pyStrLtChars : List Char → List Char → Bool
  | [], [] => false
  | [], _ :: _ => true
  | _ :: _, [] => false
  | a :: as, b :: bs =>
    if a.toNat < b.toNat then true
    else if a.toNat == b.toNat then pyStrLtChars as bs
    else false

/-- Python string `<`. -/
def pyStrLt (a b : String) : Bool := pyStrLtChars a.data b.data

/-- Uncaught Python exceptions that the validator and the distance
calculator can raise. -/
inductive PyErr
  | keyError (k : String)
  | typeError
  | refLoadError (msg : String)
  | invalidOperation (s : String)
  deriving Repr, DecidableEq

/-- The per-field rules dict of a schema entry (`fields:` mapping in the
YAML schema).  Absent keys are `none` / the falsy default, matching
`rules.get(...)` accesses in the source.  The compiled regular expression
of `re.fullmatch` is treated as a given match predicate. -/
structure Rules where
  type? : Option String := none
  active? : Option Bool := none
  required : Bool := false
  pattern? : Option (String → Bool) := none
  enum? : Option (List String) := none
  unique : Bool := false
  reference_file? : Option String := none
  reference_column? : Option String := none

/-- A schema: the ordered `fields` mapping of the YAML document. -/
abbrev Schema := List (String × Rules)

/-- `VALID_TYPES = ["string", "integer", "enum", "decimal", "reference"]`. -/
def VALID_TYPES : List String := ["string", "integer", "enum", "decimal", "reference"]

/-- Abstract filesystem for reference CSV files: path to the rows a
`csv.DictReader` over that file would yield (`none`: unreadable/missing). -/
abbrev FS := String → Option (List Row)

/-- State of the process-wide `functools.cache` on `load_reference_values`,
keyed by `(file_path, column_name)`.  The cached Python `set` is modelled
as the list of collected values (only membership is ever consulted). -/
abbrev RefCache := List ((String × String) × List String)

/-- `values.add(row[column_name])` over every row: collects the column,
raising (`none`) when some row lacks the column. -/
def collectColumn : List Row → String → Option (List String)
  | [], _ => some []
  | r :: rest, col =>
    match getOpt r col with
    | none => none
    | some v => (collectColumn rest col).map (fun vs => v :: vs)

/-- `load_reference_values(file_path, column_name)` with the
`functools.cache` made explicit: a cache hit returns the memoized set
without touching the filesystem; a miss reads the file, collects the
column and stores the result.  A raised exception (missing file or
column) caches nothing.  The error string stands for `str(e)`. -/
def load_reference_values (fs : FS) (cache : RefCache) (file_path column_name : String) :
    Except String (List String × RefCache) :=
  match cache.find? (fun e => e.1 == (file_path, column_name)) with
  | some e => .ok (e.2, cache)
  | none =>
    match fs file_path with
    | none => .error "FileNotFoundError"
    | some rows =>
      match collectColumn rows column_name with
      | none => .error "KeyError"
      | some values => .ok (values, ((file_path, column_name), values) :: cache)

/-- Message of the `required` check. -/
def reqMsg (i : Nat) (f : String) : String :=
  s!"Row {i}: \x27{f}\x27 is required"

/-- Message of the whitespace check. -/
def wsMsg (i : Nat) (f : String) : String :=
  s!"Row {i}: \x27{f}\x27 contains leading/trailing whitespace."

/-- Message of the pattern check. -/
def patMsg (i : Nat) (f v : String) : String :=
  s!"Row {i}: \x27{f}\x27 value \x27{v}\x27 does not match pattern"

/-- Message of the enum check. -/
def enumMsg (i : Nat) (f v : String) : String :=
  s!"Row {i}: \x27{f}\x27 value \x27{v}\x27 not in allowed values"

/-- Message of the reference check. -/
def refMsg (i : Nat) (f v : String) : String :=
  s!"Row {i}: \x27{f}\x27 value \x27{v}\x27 not in reference file"

/-- Message of `check_duplicate_ids`. -/
def dupMsg (i : Nat) (v f : String) : String :=
  s!"Row {i}: Duplicate value \x27{v}\x27 for column \x27{f}\x27"

/-- Message of the sort-order check. -/
def sortMsg (i : Nat) (cur prev : String) : String :=
  s!"Row {i}: Not sorted, ID \x27{cur}\x27 comes after \x27{prev}\x27"

/-- `validate_field(value, rules, field_name, row_num)`.  Returns the
updated reference cache together with either the list of error messages
or an uncaught exception (`load_reference_values` is not wrapped in a
`try` here; `rules["reference_file"]` indexing can raise `KeyError`). -/
def validate_field (fs : FS) (cache : RefCache) (value : String) (rules : Rules)
    (field_name : String) (row_num : Nat) : RefCache × Except PyErr (List String) :=
  if rules.active? == some false then (cache, .ok [])
  else
    let e1 := if rules.required && (value == "") then [reqMsg row_num field_name] else []
    let e2 :=
      if value != "" && ((strip value).length != value.data.length)
      then [wsMsg row_num field_name] else []
    let e3 :=
      match rules.pattern? with
      | some m => if value != "" && !(m value) then [patMsg row_num field_name value] else []
      | none => []
    let e4 :=
      match rules.enum? with
      | some allowed =>
        if value != "" && !(allowed.contains value)
        then [enumMsg row_num field_name value] else []
      | none => []
    if value != "" && (rules.type? == some "reference") then
      match rules.reference_file? with
      | none => (cache, .error (.keyError "reference_file"))
      | some rf =>
        match rules.reference_column? with
        | none => (cache, .error (.keyError "reference_column"))
        | some rc =>
          match load_reference_values fs cache rf rc with
          | .error e => (cache, .error (.refLoadError e))
          | .ok (ref_values, cache') =>
            let e5 :=
              if !(ref_values.contains value)
              then [refMsg row_num field_name value] else []
            (cache', .ok (e1 ++ e2 ++ e3 ++ e4 ++ e5))
    else (cache, .ok (e1 ++ e2 ++ e3 ++ e4))

/-- `check_duplicate_ids(id_field_name, id_val, seen_ids, line_idx)`:
returns the errors and the updated `seen_ids` set (modelled as a list). -/
def check_duplicate_ids (id_field_name : String) (id_val : String)
    (seen_ids : List String) (line_idx : Nat) : List String × List String :=
  if id_val == "" then ([], seen_ids)
  else if seen_ids.contains id_val then
    ([dupMsg line_idx id_val id_field_name], seen_ids)
  else ([], id_val :: seen_ids)

/-- `seen_ids = defaultdict(set)`: per-field sets of seen values. -/
abbrev Seen := List (String × List String)

/-- `seen_ids[field]` read access (a fresh field yields the empty set). -/
def seenGet (seen : Seen) (f : String) : List String :=
  ((seen.find? (fun p => p.1 == f)).map (fun p => p.2)).getD []

/-- Store the updated set back for `field` (insertion order preserved). -/
def seenSet (seen : Seen) (f : String) (v : List String) : Seen :=
  if seen.any (fun p => p.1 == f) then
    seen.map (fun p => if p.1 == f then (f, v) else p)
  else seen ++ [(f, v)]

/-- Render of a Python value inside an f-string (`None` prints as `None`). -/
def optStr : Option String → String
  | none => "None"
  | some s => s

/-- Message of the schema type check. -/
def typeMsg (f : String) (t : Option String) : String :=
  s!"Schema: {f} is invalid type \x27{optStr t}\x27"

/-- Message of a caught reference-load failure during the schema check. -/
def refLoadMsg (f e : String) : String :=
  s!"Error loading reference file for {f}: {e}"

/-- The schema-verification loop at the top of `validate_csv`: checks every
field type against `VALID_TYPES` and pre-loads every reference field via
`load_reference_values`, catching any exception as a schema error.  Missing
`reference_file` / `reference_column` keys also raise inside the `try` and
are caught (their `str(e)` is the missing key). -/
def schemaCheck (fs : FS) : Schema → RefCache → List String × RefCache
  | [], cache => ([], cache)
  | (field, rules) :: rest, cache =>
    let typeErrs :=
      match rules.type? with
      | some t => if VALID_TYPES.contains t then [] else [typeMsg field (some t)]
      | none => [typeMsg field none]
    let step : List String × RefCache :=
      if rules.type? == some "reference" then
        match rules.reference_file? with
        | none => ([refLoadMsg field "KeyError"], cache)
        | some rf =>
          match rules.reference_column? with
          | none => ([refLoadMsg field "KeyError"], cache)
          | some rc =>
            match load_reference_values fs cache rf rc with
            | .ok (_, cache') => ([], cache')
            | .error e => ([refLoadMsg field e], cache)
      else ([], cache)
    let next := schemaCheck fs rest step.2
    (typeErrs ++ step.1 ++ next.1, next.2)

/-- Result of the per-row field loop. -/
inductive LoopRes
  | cont (errors : List String) (seen : Seen)
  | fast (printed : List String)
  | exc (e : PyErr)
  deriving Repr

/-- The inner `for field, rules in core_schema.items()` loop of
`validate_csv`: extends `errors` with `validate_field`, runs
`check_duplicate_ids` for `unique` fields, and performs the
`if fail_fast and errors: sys.exit(1)` check after each field. -/
def fieldLoop (fs : FS) (fail_fast : Bool) (row : Row) (i : Nat) :
    Schema → List String → Seen → RefCache → RefCache × LoopRes
  | [], errors, seen, cache => (cache, .cont errors seen)
  | (field, rules) :: rest, errors, seen, cache =>
    let value := getD row field ""
    match validate_field fs cache value rules field i with
    | (cache', .error e) => (cache', .exc e)
    | (cache', .ok fieldErrs) =>
      let errors := errors ++ fieldErrs
      let step : List String × Seen :=
        if rules.unique then
          let r := check_duplicate_ids field value (seenGet seen field) i
          (r.1, seenSet seen field r.2)
        else ([], seen)
      let errors := errors ++ step.1
      if fail_fast && !errors.isEmpty then (cache', .fast errors)
      else fieldLoop fs fail_fast row i rest errors step.2 cache'

/-- Result of the row loop. -/
inductive RowRes
  | done (errors : List String)
  | fast (printed : List String)
  | exc (e : PyErr)
  deriving Repr

/-- The `for i, row in enumerate(reader, start=2)` loop of `validate_csv`:
sort-order check first (guarded by the truthiness of `prev_id`, comparing
`row.get("sparks_id")` against it, where comparing `None` to a string
raises `TypeError`), then the field loop, then
`prev_id = row["sparks_id"]` (which raises `KeyError` if absent). -/
def rowLoop (fs : FS) (fail_fast : Bool) (schema : Schema) :
    List Row → Nat → Option String → List String → Seen → RefCache → RefCache × RowRes
  | [], _, _, errors, _, cache => (cache, .done errors)
  | row :: rest, i, prev_id, errors, seen, cache =>
    let sortStep : Except PyErr (List String × Bool) :=
      if truthy prev_id then
        match getOpt row "sparks_id" with
        | none => .error .typeError
        | some cur =>
          if pyStrLt cur (prev_id.getD "") then
            .ok (errors ++ [sortMsg i cur (prev_id.getD "")], true)
          else .ok (errors, false)
      else .ok (errors, false)
    match sortStep with
    | .error e => (cache, .exc e)
    | .ok (errors, appended) =>
      if appended && fail_fast && !errors.isEmpty then (cache, .fast errors)
      else
        match fieldLoop fs fail_fast row i schema errors seen cache with
        | (cache', .exc e) => (cache', .exc e)
        | (cache', .fast printed) => (cache', .fast printed)
        | (cache', .cont errors' seen') =>
          match getOpt row "sparks_id" with
          | none => (cache', .exc (.keyError "sparks_id"))
          | some v => rowLoop fs fail_fast schema rest (i + 1) (some v) errors' seen' cache'

/-- Overall outcome of `validate_csv`: an uncaught exception, `sys.exit(2)`
after schema errors, `sys.exit(1)` from fail-fast, `sys.exit(1)` after the
full pass, or normal return (success). -/
inductive Outcome
  | exc (e : PyErr)
  | exitSchema (errors : List String)
  | exitFast (printed : List String)
  | exitData (errors : List String)
  | ok
  deriving Repr, DecidableEq

/-- `validate_csv(csv_path, core_schema_path, fail_fast)`.  The YAML load
and the CSV `DictReader` are external: the `fields` mapping and the data
rows are passed directly.  The reference-value cache is explicit state: it
enters from the surrounding process and the (possibly extended) cache is
returned with the outcome, mirroring the process-wide `functools.cache`. -/
def validate_csv (fs : FS) (cache : RefCache) (core_schema : Schema)
    (rows : List Row) (fail_fast : Bool) : RefCache × Outcome :=
  let sc := schemaCheck fs core_schema cache
  if !sc.1.isEmpty then (sc.2, .exitSchema sc.1)
  else
    match rowLoop fs fail_fast core_schema rows 2 none [] [] sc.2 with
    | (cache', .done errors) =>
      (cache', if errors.isEmpty then .ok else .exitData errors)
    | (cache', .fast printed) => (cache', .exitFast printed)
    | (cache', .exc e) => (cache', .exc e)

/-!
Embedding of `src/crosswalk/build_crosswalk_dist.py`.  The writers are
modelled as the strings they put into the output files; directory creation
and actual file I/O are external.
-/

/-- `load_fields(schema_path)`: the active fields, in schema order, each
with its `unique` flag (`v.get("active", True)` / `v.get("unique", False)`). -/
def load_fields (schema : Schema) : List (String × Bool) :=
  (schema.filter (fun p => p.2.active?.getD true)).map (fun p => (p.1, p.2.unique))

/-- A projected row: field name to value-or-null (`d[k] or None`). -/
abbrev ProjRow := List (String × Option String)

/-- `{k: d[k] or None for k in fields if k in d}`. -/
def projectRow (fields : List (String × Bool)) (d : Row) : ProjRow :=
  fields.filterMap (fun kv =>
    match getOpt d kv.1 with
    | none => none
    | some v => some (kv.1, if v == "" then none else some v))

/-- The projection step of `process_file` applied to every loaded row. -/
def projectData (fields : List (String × Bool)) (data : List Row) : List ProjRow :=
  data.map (projectRow fields)

/-- JSON string literal (escaping the quote and backslash; the remaining
escapes of the `json` library are outside the model). -/
def jstr (s : String) : String :=
  "\"" ++ String.mk (s.data.foldr
    (fun c acc => if c == '"' || c == '\\' then '\\' :: c :: acc else c :: acc) []) ++ "\""

/-- Serialized JSON value of a projected cell (`null` for `None`). -/
def dumpVal : Option String → String
  | none => "null"
  | some s => jstr s

/-- `json.dumps` of one row dict with `indent=None` (the default
separators `", "` and `": "` keep a space after each comma and colon). -/
def dumpRowCompact (r : ProjRow) : String :=
  "\x7b" ++ ", ".intercalate (r.map (fun kv => jstr kv.1 ++ ": " ++ dumpVal kv.2)) ++ "\x7d"

/-- `json.dumps` of the row list with `indent=None`. -/
def dumpListCompact (d : List ProjRow) : String :=
  "[" ++ ", ".intercalate (d.map dumpRowCompact) ++ "]"

/-- `n` spaces. -/
def pad (n : Nat) : String := String.mk (List.replicate n ' ')

/-- `json.dumps` of one row dict under `indent=2`, nested one level deep
inside the list (so its members are indented four spaces and its closing
brace two). -/
def dumpRowIndent (r : ProjRow) : String :=
  if r.isEmpty then "\x7b\x7d"
  else
    "\x7b\n"
      ++ ",\n".intercalate (r.map (fun kv => pad 4 ++ jstr kv.1 ++ ": " ++ dumpVal kv.2))
      ++ "\n" ++ pad 2 ++ "\x7d"

/-- `json.dumps` of the row list under `indent=2`. -/
def dumpListIndent (d : List ProjRow) : String :=
  if d.isEmpty then "[]"
  else "[\n" ++ ",\n".intercalate (d.map (fun r => pad 2 ++ dumpRowIndent r)) ++ "\n]"

/-- `write_json(data, filepath, fields, minified=False)`: the file content
written, `json.dump(data, f, indent=None if minified else 2)`. -/
def write_json (data : List ProjRow) (minified : Bool := false) : String :=
  if minified then dumpListCompact data else dumpListIndent data

/-- `write_json_min(data, file, fields)`: the source forwards to
`write_json(data, file, fields)` without passing `minified=True`. -/
def write_json_min (data : List ProjRow) : String :=
  write_json data

/-- `write_ndjson`: one compact `json.dumps(row)` per line. -/
def write_ndjson (data : List ProjRow) : String :=
  String.join (data.map (fun r => dumpRowCompact r ++ "\n"))

/-- A CSV cell as `csv.writer` renders it (`None` becomes the empty
string); quoting of delimiters is outside the model. -/
def csvCell (v : Option (Option String)) : String :=
  match v with
  | none => ""
  | some none => ""
  | some (some s) => s

/-- `write_csv`: `DictWriter` with `fieldnames=fields` and
`extrasaction="ignore"`; missing keys are written empty, rows end in
`\r\n`. -/
def write_csv (data : List ProjRow) (fields : List (String × Bool)) : String :=
  ",".intercalate (fields.map (fun p => p.1)) ++ "\r\n"
    ++ String.join (data.map (fun r =>
        ",".intercalate (fields.map (fun p =>
          csvCell ((r.find? (fun kv => kv.1 == p.1)).map (fun kv => kv.2)))) ++ "\r\n"))

/-- `FILE_WRITERS`: extension to written file content for one dataset. -/
def FILE_WRITERS (data : List ProjRow) (fields : List (String × Bool)) :
    List (String × String) :=
  [(".csv", write_csv data fields),
   (".json", write_json data),
   (".min.json", write_json_min data),
   (".ndjson", write_ndjson data)]

/-- Truthiness of a projected cell (`if id_value:`). -/
def truthyCell : Option (Option String) → Bool
  | some (some v) => v != ""
  | _ => false

/-- One insertion into a field mapping: for a `unique` field the record
replaces any earlier owner of the value (last wins); otherwise it is
appended to the value's list.  A dict keeps the first-insertion position
of an existing key. -/
def mappingAdd (m : List (String × List ProjRow)) (k : String) (row : ProjRow)
    (field_unique : Bool) : List (String × List ProjRow) :=
  if m.any (fun p => p.1 == k) then
    m.map (fun p =>
      if p.1 == k then (k, if field_unique then [row] else p.2 ++ [row]) else p)
  else m ++ [(k, if field_unique then [row] else [row])]

/-- The mapping built for one field over the data rows. -/
def buildMapping (field : String) (field_unique : Bool) (data : List ProjRow) :
    List (String × List ProjRow) :=
  data.foldl (fun m row =>
    let id_value := (row.find? (fun kv => kv.1 == field)).map (fun kv => kv.2)
    if truthyCell id_value then
      mappingAdd m (id_value.getD none |>.getD "") row field_unique
    else m) []

/-- `write_field_mappings(file, data, dest_dir, fields)`: the per-field
index structures actually written (empty mappings are skipped); each entry
becomes the pair of files `D.F.json` / `D.F.min.json`.  For a `unique`
field the stored list is the singleton owner record. -/
def write_field_mappings (data : List ProjRow) (fields : List (String × Bool)) :
    List (String × List (String × List ProjRow)) :=
  fields.filterMap (fun kv =>
    let mapping := buildMapping kv.1 kv.2 data
    if mapping.isEmpty then none else some (kv.1, mapping))

/-!
Embedding of `src/registry/calc_haversine.py`.  The `haversine` library
call is an external pure function of the two coordinate pairs (the unit
argument is absorbed into it); it is a parameter of the embedding.
`Decimal(...)` coordinates are exact rationals.
-/

/-- Parse a digit list into its value, `none` when empty or non-digit. -/
def parseDigits : List Char → Option Nat
  | [] => none
  | l => l.foldl (fun acc c =>
      match acc with
      | none => none
      | some n => if c.isDigit then some (n * 10 + (c.toNat - 48)) else none)
      (some 0)

/-- `Decimal(s)` on a plain decimal literal: optional sign, integer part,
optional fractional part (at least one digit overall).  Exotic `Decimal`
inputs (exponents, `NaN`, `Infinity`, surrounding whitespace) are outside
the model; `none` stands for a raised `decimal.InvalidOperation`. -/
def parseUnsignedDecimal (l : List Char) : Option ℚ :=
  match l.splitOn '.' with
  | [ip] => (parseDigits ip).map (fun n => (n : ℚ))
  | [ip, fp] =>
    if ip.isEmpty && fp.isEmpty then none
    else if !(ip.all Char.isDigit) || !(fp.all Char.isDigit) then none
    else
      some (mkRat ((parseDigits ip).getD 0 * 10 ^ fp.length + (parseDigits fp).getD 0)
        (10 ^ fp.length))
  | _ => none

/-- `Decimal(s)` including the sign. -/
def parseDecimal (s : String) : Option ℚ :=
  match s.data with
  | '-' :: rest => (parseUnsignedDecimal rest).map (fun q => -q)
  | '+' :: rest => parseUnsignedDecimal rest
  | l => parseUnsignedDecimal l

/-- `(Decimal(loc["latitude_dd"]), Decimal(loc["longitude_dd"]))`: raises
`KeyError` on a missing coordinate field and `InvalidOperation` on a
non-numeric value. -/
def getCoords (loc : Row) : Except PyErr (ℚ × ℚ) :=
  match getOpt loc "latitude_dd" with
  | none => .error (.keyError "latitude_dd")
  | some slat =>
    match parseDecimal slat with
    | none => .error (.invalidOperation slat)
    | some lat =>
      match getOpt loc "longitude_dd" with
      | none => .error (.keyError "longitude_dd")
      | some slon =>
        match parseDecimal slon with
        | none => .error (.invalidOperation slon)
        | some lon => .ok (lat, lon)

/-- Python `int(...)` on a number: truncation toward zero. -/
def truncQ (q : ℚ) : ℤ := Int.tdiv q.num q.den

/-- Assignment `m[k] = v` on a dict: an existing key keeps its position
and gets the new value, a new key is appended. -/
def dictSet {α : Type} (m : List (String × α)) (k : String) (v : α) :
    List (String × α) :=
  if m.any (fun p => p.1 == k) then
    m.map (fun p => if p.1 == k then (k, v) else p)
  else m ++ [(k, v)]

/-- Stable insertion into a list sorted ascending by the numeric value
(an incoming element goes after existing equal values). -/
def insertByVal (x : String × ℤ) : List (String × ℤ) → List (String × ℤ)
  | [] => [x]
  | y :: rest => if y.2 ≤ x.2 then y :: insertByVal x rest else x :: y :: rest

/-- Python `sorted(items, key=lambda s: s[1])`: the stable ascending sort
by value (stable sorts agree extensionally, so insertion sort models
Timsort faithfully). -/
def sortByVal (l : List (String × ℤ)) : List (String × ℤ) :=
  l.foldl (fun acc x => insertByVal x acc) []

/-- The inner `for dest in locations` loop of `calculate_distances` for a
fixed `src`: pairs with `src == dest` (dict equality) are skipped; both
coordinate pairs are evaluated for every remaining pair; the pair is kept
when `dist >= min_distance and dist <= max_distance`, storing
`int(dist)` under `dest["sparks_id"]`. -/
def destLoop (hav : ℚ × ℚ → ℚ × ℚ → ℚ) (src : Row) (min_distance max_distance : ℚ) :
    List Row → List (String × ℤ) → Except PyErr (List (String × ℤ))
  | [], acc => .ok acc
  | dest :: rest, acc =>
    if src == dest then destLoop hav src min_distance max_distance rest acc
    else
      match getCoords src with
      | .error e => .error e
      | .ok src_coords =>
        match getCoords dest with
        | .error e => .error e
        | .ok dest_coords =>
          let dist := hav src_coords dest_coords
          if min_distance ≤ dist ∧ dist ≤ max_distance then
            match getOpt dest "sparks_id" with
            | none => .error (.keyError "sparks_id")
            | some did =>
              destLoop hav src min_distance max_distance rest
                (dictSet acc did (truncQ dist))
          else destLoop hav src min_distance max_distance rest acc

/-- The outer `for src in locations` loop: each source's map is sorted by
distance and stored under `src["sparks_id"]`. -/
def srcLoop (hav : ℚ × ℚ → ℚ × ℚ → ℚ) (locations : List Row)
    (min_distance max_distance : ℚ) :
    List Row → List (String × List (String × ℤ)) →
    Except PyErr (List (String × List (String × ℤ)))
  | [], acc => .ok acc
  | src :: rest, acc =>
    match destLoop hav src min_distance max_distance locations [] with
    | .error e => .error e
    | .ok src_distances =>
      match getOpt src "sparks_id" with
      | none => .error (.keyError "sparks_id")
      | some sid =>
        srcLoop hav locations min_distance max_distance rest
          (dictSet acc sid (sortByVal src_distances))

/-- `calculate_distances(locations, unit, min_distance, max_distance)`:
the nested distance map, or the uncaught exception aborting the whole
computation. -/
def calculate_distances (hav : ℚ × ℚ → ℚ × ℚ → ℚ) (locations : List Row)
    (min_distance max_distance : ℚ) :
    Except PyErr (List (String × List (String × ℤ))) :=
  srcLoop hav locations min_distance max_distance locations []

/-!
Spec-side comparison definitions (written from the specification text, to
be compared with the embedded source functions).
-/

/-- Spec sort-order errors, from row `i` on, for the identifier values
that follow `prev`: an error exactly at each decrease from one row to the
next, citing the offending and the preceding value. -/
def specSortFrom : Nat → String → List String → List String
  | _, _, [] => []
  | i, prev, cur :: rest =>
    (if pyStrLt cur prev then [sortMsg i cur prev] else []) ++ specSortFrom (i + 1) cur rest

/-- Spec sort-order errors of an identifier sequence (first data row is
row 2, so the first comparison happens at row 3). -/
def specSortErrors : List String → List String
  | [] => []
  | first :: rest => specSortFrom 3 first rest

/-- Spec repeat occurrences of a unique field, from row `i` on, given the
values already seen in `prev`: the row number and value of every
occurrence of a non-empty value that already appeared in an earlier row. -/
def specRepeatsFrom : Nat → List String → List String → List (Nat × String)
  | _, _, [] => []
  | i, prev, v :: rest =>
    (if v != "" && prev.contains v then [(i, v)] else [])
      ++ specRepeatsFrom (i + 1) (v :: prev) rest

/-- Spec repeat occurrences of a value sequence (first data row is row 2). -/
def specRepeats (vals : List String) : List (Nat × String) :=
  specRepeatsFrom 2 [] vals

/-- An always-failing filesystem (no reference file is resolvable). -/
def noFS : FS := fun _ => none

/-- An inactive `unique` string field schema entry. -/
def inactiveUniqRules : Rules :=
  { type? := some "string", active? := some false, unique := true }

/-- A required string field schema entry. -/
def reqRules : Rules := { type? := some "string", required := true }

/-- A plain unique string field schema entry. -/
def uniqRules : Rules := { type? := some "string", unique := true }

/-- A reference field against column `col` of `ref.csv`. -/
def refRules : Rules :=
  { type? := some "reference", reference_file? := some "ref.csv",
    reference_column? := some "col" }

/-- Filesystem whose `ref.csv` has a single column `col` holding `x`. -/
def fsX : FS := fun p => if p == "ref.csv" then some [[("col", "x")]] else none

/-- Filesystem whose `ref.csv` has a single column `col` holding `y`. -/
def fsY : FS := fun p => if p == "ref.csv" then some [[("col", "y")]] else none

/-- Location record `a` at (1, 2). -/
def locA : Row := [("sparks_id", "a"), ("latitude_dd", "1"), ("longitude_dd", "2")]

/-- Location record `b` at (3, 4). -/
def locB : Row := [("sparks_id", "b"), ("latitude_dd", "3"), ("longitude_dd", "4")]

/-- In an association list with duplicate-free keys (a Python dict), the
key determines the value. -/
theorem keys_nodup_mem_eq {α : Type} {l : List (String × α)}
    (h : (l.map Prod.fst).Nodup) {f : String} {a b : α}
    (ha : (f, a) ∈ l) (hb : (f, b) ∈ l) : a = b := by
  induction l with
  | nil => cases ha
  | cons x xs ih =>
    rw [List.map_cons, List.nodup_cons] at h
    rcases List.mem_cons.mp ha with h1 | ha'
    · rcases List.mem_cons.mp hb with h2 | hb'
      · rw [← h1] at h2; exact (congrArg Prod.snd h2).symm
      · exact absurd (List.mem_map.mpr ⟨(f, b), hb', by rw [← h1]⟩) h.1
    · rcases List.mem_cons.mp hb with h2 | hb'
      · exact absurd (List.mem_map.mpr ⟨(f, a), ha', by rw [← h2]⟩) h.1
      · exact ih h.2 ha' hb'

/-- C1: the claim as stated is false: a field with `active: false` and
`unique: true` still contributes duplicate-value errors, because the
`check_duplicate_ids` call in `validate_csv` is outside `validate_field`
and not guarded by the `active` flag.  A two-row CSV repeating value `x`
in the inactive field `f` makes validation fail with a duplicate error. -/
theorem C1_counterexample :
    validate_csv noFS [] [("f", inactiveUniqRules)]
      [[("sparks_id", "a"), ("f", "x")], [("sparks_id", "a"), ("f", "x")]] false
      = ([], .exitData [dupMsg 3 "x" "f"]) := by
  decide

/-- C1 amended: an inactive field contributes no `validate_field` errors
(the function returns no errors without touching the cache), is excluded
from `load_fields` and hence from every Distribution Builder output (the
projection only keeps keys of the loaded fields, and the per-field
mappings only index loaded fields) — but, per the counterexample, the
duplicate-value check of `unique` fields is not covered by this guarantee. -/
theorem C1_amended :
    (∀ (fs : FS) (cache : RefCache) (value : String) (rules : Rules) (f : String) (i : Nat),
        rules.active? = some false →
        validate_field fs cache value rules f i = (cache, .ok []))
    ∧ (∀ (schema : Schema) (f : String) (rules : Rules),
        (schema.map Prod.fst).Nodup → (f, rules) ∈ schema →
        rules.active? = some false →
        f ∉ (load_fields schema).map Prod.fst)
    ∧ (∀ (fields : List (String × Bool)) (data : List Row),
        ∀ r ∈ projectData fields data, ∀ kv ∈ r, kv.1 ∈ fields.map Prod.fst)
    ∧ (∀ (data : List ProjRow) (fields : List (String × Bool)),
        ∀ m ∈ write_field_mappings data fields, m.1 ∈ fields.map Prod.fst) := by
  refine ⟨?_, ?_, ?_, ?_⟩
  · intro fs cache value rules f i h
    simp [validate_field, h]
  · intro schema f rules hnd hmem hin hcontra
    unfold load_fields at hcontra
    rw [List.map_map, List.mem_map] at hcontra
    obtain ⟨p, hp, hpf⟩ := hcontra
    rw [List.mem_filter] at hp
    have hp1 : p.1 = f := hpf
    have hpe : p = (f, p.2) := by rw [← hp1]
    rw [hpe] at hp
    have := keys_nodup_mem_eq hnd hp.1 hmem
    rw [← this] at hin
    rw [hin] at hp
    simp [Option.getD] at hp
  · intro fields data r hr kv hkv
    unfold projectData at hr
    rw [List.mem_map] at hr
    obtain ⟨d, _, rfl⟩ := hr
    unfold projectRow at hkv
    rw [List.mem_filterMap] at hkv
    obtain ⟨p, hp, heq⟩ := hkv
    rw [List.mem_map]
    refine ⟨p, hp, ?_⟩
    cases hg : getOpt d p.1 <;> rw [hg] at heq
    · cases heq
    · cases heq; rfl
  · intro data fields m hm
    unfold write_field_mappings at hm
    rw [List.mem_filterMap] at hm
    obtain ⟨kv, hkv, heq⟩ := hm
    rw [List.mem_map]
    refine ⟨kv, hkv, ?_⟩
    by_cases he : (buildMapping kv.1 kv.2 data).isEmpty <;> simp [he] at heq
    rw [← heq]

/-- C1 amended, witness: a concrete inactive unique field. -/
theorem C1_amended_witness :
    validate_field noFS [] "x" inactiveUniqRules "f" 2 = ([], .ok [])
    ∧ "f" ∉ (load_fields [("f", inactiveUniqRules)]).map Prod.fst :=
  ⟨C1_amended.1 noFS [] "x" inactiveUniqRules "f" 2 rfl,
   C1_amended.2.1 [("f", inactiveUniqRules)] "f" inactiveUniqRules (by decide)
     (by simp) rfl⟩

/-- C2: the code contradicts its intent: `write_json_min` forwards to
`write_json` without `minified=True`, so (first conjunct) the `.min.json`
content always equals the pretty `indent=2` content, (second) on a
one-row dataset it contains newlines rather than being whitespace-free,
and (third) it differs from what `json.dump` with `indent=None` (the
minified branch that `write_field_mappings` does request) would produce. -/
theorem C2_bug_eval :
    (∀ data : List ProjRow, write_json_min data = write_json data false)
    ∧ '\n' ∈ (write_json_min [[("a", some "b")]]).data
    ∧ write_json_min [[("a", some "b")]] ≠ write_json [[("a", some "b")]] true := by
  refine ⟨fun data => rfl, by decide, by decide⟩

/-- C3: the claim as stated is false: with fail-fast requested and a row
whose fields `f1` and `f2` are both missing though required, validation
exits after the first failing field and prints only the `f1` error, while
the default mode shows the row carries two per-field errors. -/
theorem C3_counterexample :
    (validate_csv noFS [] [("f1", reqRules), ("f2", reqRules)]
        [[("sparks_id", "a")]] true).2
      = .exitFast [reqMsg 2 "f1"]
    ∧ (validate_csv noFS [] [("f1", reqRules), ("f2", reqRules)]
        [[("sparks_id", "a")]] false).2
      = .exitData [reqMsg 2 "f1", reqMsg 2 "f2"] := by
  exact ⟨by decide, by decide⟩

/-- C3 amended: fail-fast stops at the first check that yields an error
and reports only the errors accumulated up to and including that check:
after the first failing field of the row (later per-field errors of the
same row are not reported), and immediately after a sort-order error
(before any per-field check of that row runs).  Both modes shown on the
same inputs as the counterexample plus a sorted-breaking second row. -/
theorem C3_amended :
    (validate_csv noFS [] [("f1", reqRules), ("f2", reqRules)]
        [[("sparks_id", "b"), ("f1", "x"), ("f2", "x")], [("sparks_id", "a")]] true).2
      = .exitFast [sortMsg 3 "a" "b"]
    ∧ (validate_csv noFS [] [("f1", reqRules), ("f2", reqRules)]
        [[("sparks_id", "b"), ("f1", "x"), ("f2", "x")], [("sparks_id", "a")]] false).2
      = .exitData [sortMsg 3 "a" "b", reqMsg 3 "f1", reqMsg 3 "f2"]
    ∧ (validate_csv noFS [] [("f1", reqRules), ("f2", reqRules), ("f1x", reqRules)]
        [[("sparks_id", "a")]] true).2
      = .exitFast [reqMsg 2 "f1"] := by
  exact ⟨by decide, by decide, by decide⟩

/-- C4: the claim as stated is false: the `functools.cache` on
`load_reference_values` is process-wide, not per-run.  A first run against
a reference file holding `x` caches `{x}`; a second run in the same
process after the file changed to hold `y` still validates against the
stale cached set and rejects `y`, while the same second run started with
an empty cache (a fresh process) accepts it. -/
theorem C4_counterexample :
    validate_csv fsX [] [("r", refRules)] [[("sparks_id", "a"), ("r", "x")]] false
      = ([(("ref.csv", "col"), ["x"])], .ok)
    ∧ (validate_csv fsY [(("ref.csv", "col"), ["x"])] [("r", refRules)]
        [[("sparks_id", "a"), ("r", "y")]] false).2
      = .exitData [refMsg 2 "r" "y"]
    ∧ (validate_csv fsY [] [("r", refRules)]
        [[("sparks_id", "a"), ("r", "y")]] false).2
      = .ok := by
  exact ⟨by decide, by decide, by decide⟩

/-- C4 amended: the Reference-Value Cache is memoized per
`(file, column)` for the lifetime of the process, not of one run: on a
cache hit `load_reference_values` returns the stored set unchanged without
reading the filesystem at all (the result is the same under every
filesystem), so entries carried over from an earlier run are reused even
if the file contents changed in between. -/
theorem C4_amended (fs fs' : FS) (cache : RefCache) (f c : String)
    (e : (String × String) × List String)
    (h : cache.find? (fun p => p.1 == (f, c)) = some e) :
    load_reference_values fs cache f c = .ok (e.2, cache)
    ∧ load_reference_values fs cache f c = load_reference_values fs' cache f c := by
  unfold load_reference_values
  rw [h]
  exact ⟨rfl, rfl⟩

/-- C4 amended, witness: a concrete cache hit on `("ref.csv", "col")`. -/
theorem C4_amended_witness :
    load_reference_values noFS [(("ref.csv", "col"), ["x"])] "ref.csv" "col"
      = .ok (["x"], [(("ref.csv", "col"), ["x"])])
    ∧ load_reference_values noFS [(("ref.csv", "col"), ["x"])] "ref.csv" "col"
      = load_reference_values fsY [(("ref.csv", "col"), ["x"])] "ref.csv" "col" :=
  C4_amended noFS fsY [(("ref.csv", "col"), ["x"])] "ref.csv" "col"
    (("ref.csv", "col"), ["x"]) (by decide)

/-- Nothing compares below the empty string. -/
theorem pyStrLtChars_nil_right (l : List Char) : pyStrLtChars l [] = false := by
  cases l <;> rfl

/-- Nothing compares below the empty string (string form). -/
theorem pyStrLt_empty (s : String) : pyStrLt s "" = false :=
  pyStrLtChars_nil_right s.data

/-- Lookup of the identifier in a single-column row. -/
theorem getOpt_single (s : String) :
    getOpt [("sparks_id", s)] "sparks_id" = some s := rfl

/-- The row loop over an empty schema on single-column identifier rows
computes exactly the specification's sort-order errors. -/
theorem rowLoop_sortOnly (fs : FS) (cache : RefCache) (ids : List String) :
    ∀ (i : Nat) (prev : String) (errors : List String) (seen : Seen),
    rowLoop fs false [] (ids.map (fun s => [("sparks_id", s)])) i (some prev) errors seen cache
      = (cache, .done (errors ++ specSortFrom i prev ids)) := by
  induction ids with
  | nil => intro i prev errors seen; simp [rowLoop, specSortFrom]
  | cons cur rest ih =>
    intro i prev errors seen
    rw [List.map_cons, rowLoop]
    by_cases hp : prev = ""
    · subst hp
      simp only [truthy, specSortFrom, pyStrLt_empty, getOpt_single, fieldLoop,
        Bool.false_and, if_neg (by simp : ¬ ("" != "") = true)]
      rw [ih]
      simp
    · cases hlt : pyStrLt cur prev
      all_goals simp only [truthy, getOpt_single, Option.getD_some, hlt, fieldLoop,
        bne_iff_ne, ne_eq, hp, not_false_eq_true, if_true, if_false,
        Bool.false_eq_true, Bool.false_and, Bool.and_false, Bool.true_and]
      all_goals rw [ih]
      all_goals simp [specSortFrom, hlt]

/-- C7: confirmed.  Over an empty schema (isolating the sort check) the
validator's errors are exactly the specification's: one error for each
row whose identifier is lexicographically smaller than the previous row's,
citing both values; and concretely the sequence `[A, C, B]` yields exactly
one error, at row 4, citing prior value `C`. -/
theorem C7_sort_order :
    (∀ (fs : FS) (cache : RefCache) (ids : List String),
        (validate_csv fs cache [] (ids.map (fun s => [("sparks_id", s)])) false).2
          = (if (specSortErrors ids).isEmpty then Outcome.ok
             else Outcome.exitData (specSortErrors ids)))
    ∧ (validate_csv noFS [] []
        [[("sparks_id", "A")], [("sparks_id", "C")], [("sparks_id", "B")]] false).2
        = .exitData [sortMsg 4 "B" "C"] := by
  constructor
  · intro fs cache ids
    cases ids with
    | nil => rfl
    | cons first rest =>
      show (match rowLoop fs false []
          (([("sparks_id", first)] : Row) :: rest.map (fun s => [("sparks_id", s)]))
          2 none [] [] cache with
        | (cache', RowRes.done errors) =>
          (cache', if errors.isEmpty then Outcome.ok else Outcome.exitData errors)
        | (cache', RowRes.fast printed) => (cache', Outcome.exitFast printed)
        | (cache', RowRes.exc e) => (cache', Outcome.exc e)).2 = _
      rw [rowLoop]
      simp only [truthy, getOpt_single, fieldLoop, Bool.false_eq_true, if_false,
        Bool.false_and, Bool.and_false]
      rw [rowLoop_sortOnly]
      simp [specSortErrors]
  · decide

/-- Appending a fresh per-field entry makes it readable. -/
theorem seenGet_append (seen : Seen) (f : String) (v : List String)
    (ha : seen.any (fun p => p.1 == f) = false) :
    seenGet (seen ++ [(f, v)]) f = v := by
  induction seen with
  | nil => simp [seenGet]
  | cons x xs ih =>
    rw [List.any_cons] at ha
    rcases Bool.or_eq_false_iff.mp ha with ⟨h1, h2⟩
    rw [List.cons_append, seenGet, List.find?_cons_of_neg _ (by simp_all)]
    exact ih h2

/-- Overwriting an existing per-field entry makes the new set readable. -/
theorem seenGet_overwrite (seen : Seen) (f : String) (v : List String)
    (ha : seen.any (fun p => p.1 == f) = true) :
    seenGet (seen.map (fun p => if p.1 == f then (f, v) else p)) f = v := by
  induction seen with
  | nil => cases ha
  | cons x xs ih =>
    rw [List.map_cons]
    by_cases hx : x.1 = f
    · simp [seenGet, hx]
    · rw [List.any_cons] at ha
      have hb : (x.1 == f) = false := beq_eq_false_iff_ne.mpr hx
      rw [hb, Bool.false_or] at ha
      rw [seenGet, List.find?_cons_of_neg _ (by simp [hb])]
      exact ih ha

/-- Reading back the per-field set just stored. -/
theorem seenGet_seenSet (seen : Seen) (f : String) (v : List String) :
    seenGet (seenSet seen f v) f = v := by
  rw [seenSet]
  cases ha : seen.any (fun p => p.1 == f)
  · rw [if_neg (by simp [ha])]
    exact seenGet_append seen f v ha
  · rw [if_pos (by simp [ha])]
    exact seenGet_overwrite seen f v ha

/-- Lookup of the data field in a two-column row whose first column is the
identifier. -/
theorem getD_pair (f : String) (hf : f ≠ "sparks_id") (v : String) :
    getD [("sparks_id", "a"), (f, v)] f "" = v := by
  have h1 : (("sparks_id" : String) == f) = false :=
    beq_eq_false_iff_ne.mpr (Ne.symm hf)
  simp [getD, getOpt, List.find?_cons, h1]

/-- `validate_field` on a plain unique string field with a clean value
reports nothing and leaves the cache alone. -/
theorem validate_field_uniq (fs : FS) (cache : RefCache) (v f : String) (i : Nat)
    (hws : (strip v).length = v.data.length) :
    validate_field fs cache v uniqRules f i = (cache, .ok []) := by
  simp [validate_field, uniqRules, hws]

/-- One step of the seen-set invariant: membership in the set tracked by
`check_duplicate_ids` matches membership among the earlier non-empty
values. -/
theorem contains_step (fname : String) (i : Nat) (S pvs : List String) (v : String)
    (hseen : ∀ x, S.contains x = (x != "" && pvs.contains x)) :
    ∀ x, ((check_duplicate_ids fname v S i).2).contains x
      = (x != "" && (v :: pvs).contains x) := by
  intro x
  by_cases hv : v = ""
  · subst hv
    rw [check_duplicate_ids, if_pos (by simp)]
    rw [hseen x]
    by_cases hx : x = "" <;> simp [hx, List.contains_cons]
  · have hv' : (v == "") = false := beq_eq_false_iff_ne.mpr hv
    rw [check_duplicate_ids, if_neg (by simp [hv'])]
    cases hc : S.contains v
    · rw [if_neg (by simp [hc])]
      by_cases hx : x = v
      · subst hx
        simp [List.contains_cons, hv]
      · rw [List.contains_cons, List.contains_cons,
          beq_eq_false_iff_ne.mpr hx, Bool.false_or, Bool.false_or]
        exact hseen x
    · rw [if_pos (by simp [hc])]
      by_cases hx : x = v
      · subst hx
        rw [hc, List.contains_cons]
        simp [hv]
      · rw [List.contains_cons, beq_eq_false_iff_ne.mpr hx, Bool.false_or]
        exact hseen x

/-- The duplicate errors emitted by one `check_duplicate_ids` call, in
terms of the earlier non-empty values. -/
theorem check_duplicate_fst (fname : String) (i : Nat) (S pvs : List String) (v : String)
    (hseen : ∀ x, S.contains x = (x != "" && pvs.contains x)) :
    (check_duplicate_ids fname v S i).1
      = if (v != "" && pvs.contains v) = true then [dupMsg i v fname] else [] := by
  rw [check_duplicate_ids]
  by_cases hv : v = ""
  · subst hv; simp
  · rw [if_neg (by simp [hv]), hseen v]
    by_cases hm : v ∈ pvs <;> simp [hm, hv]

/-- Identifier lookup in the two-column unique-field row. -/
theorem getOpt_pair_id (f v : String) :
    getOpt [("sparks_id", "a"), (f, v)] "sparks_id" = some "a" := rfl

/-- `schemaCheck` on the single plain unique string field passes. -/
theorem schemaCheck_uniq (fs : FS) (cache : RefCache) (f : String) :
    schemaCheck fs [(f, uniqRules)] cache = ([], cache) := by
  simp [schemaCheck, uniqRules, VALID_TYPES]

/-- The row loop over a single-unique-field schema computes exactly the
specification's duplicate errors: one error per repeat occurrence of a
non-empty value, citing that occurrence's row. -/
theorem rowLoop_uniqOnly (fs : FS) (cache : RefCache) (f : String)
    (hf : f ≠ "sparks_id") :
    ∀ (vals : List String) (i : Nat) (errors : List String) (seen : Seen)
      (pvs : List String) (prev : Option String),
    prev = none ∨ prev = some "a" →
    (∀ w ∈ vals, (strip w).length = w.data.length) →
    (∀ x, (seenGet seen f).contains x = (x != "" && pvs.contains x)) →
    rowLoop fs false [(f, uniqRules)]
        (vals.map (fun w => [("sparks_id", "a"), (f, w)])) i prev errors seen cache
      = (cache, .done (errors
          ++ (specRepeatsFrom i pvs vals).map (fun p => dupMsg p.1 p.2 f))) := by
  intro vals
  induction vals with
  | nil =>
    intro i errors seen pvs prev hprev hws hseen
    simp [rowLoop, specRepeatsFrom]
  | cons v rest ih =>
    intro i errors seen pvs prev hprev hws hseen
    have hws0 : (strip v).length = v.data.length := hws v (List.mem_cons_self v rest)
    have hws' : ∀ w ∈ rest, (strip w).length = w.data.length :=
      fun w hw => hws w (List.mem_cons_of_mem v hw)
    have hseen' : ∀ x,
        (seenGet (seenSet seen f (check_duplicate_ids f v (seenGet seen f) i).2) f).contains x
          = (x != "" && (v :: pvs).contains x) := by
      intro x
      rw [seenGet_seenSet]
      exact contains_step f i (seenGet seen f) pvs v hseen x
    have hfst := check_duplicate_fst f i (seenGet seen f) pvs v hseen
    rw [List.map_cons, rowLoop]
    have hred : ∀ (errs : List String),
        fieldLoop fs false [("sparks_id", "a"), (f, v)] i [(f, uniqRules)] errs seen cache
          = (cache, .cont (errs ++ (check_duplicate_ids f v (seenGet seen f) i).1)
              (seenSet seen f (check_duplicate_ids f v (seenGet seen f) i).2)) := by
      intro errs
      rw [fieldLoop, getD_pair f hf v, validate_field_uniq fs cache v f i hws0]
      simp [fieldLoop, uniqRules]
    rcases hprev with rfl | rfl
    · rw [show truthy none = false from rfl]
      simp only [Bool.false_eq_true, if_false, hred, getOpt_pair_id]
      rw [ih (i + 1) _ _ (v :: pvs) (some "a") (Or.inr rfl) hws' hseen']
      by_cases hm : ¬v = "" ∧ v ∈ pvs <;>
        simp [specRepeatsFrom, hfst, hm, List.append_assoc]
    · simp only [show truthy (some "a") = true from rfl, getOpt_pair_id,
        Option.getD_some, show pyStrLt "a" "a" = false from rfl,
        Bool.false_eq_true, if_false, if_true, eq_self_iff_true, ite_true,
        Bool.false_and, Bool.and_false, hred]
      rw [ih (i + 1) _ _ (v :: pvs) (some "a") (Or.inr rfl) hws' hseen']
      by_cases hm : ¬v = "" ∧ v ∈ pvs <;>
        simp [specRepeatsFrom, hfst, hm, List.append_assoc]

/-- The spec-side repeat list counts each non-empty value once per repeat
occurrence: filtering it for a value yields `count - 1` entries (or
`count` when the value was already seen before the block). -/
theorem specRepeatsFrom_count (v : String) (hv : v ≠ "") :
    ∀ (vals : List String) (i : Nat) (pvs : List String),
    ((specRepeatsFrom i pvs vals).filter (fun p => p.2 == v)).length
      = vals.count v - (if pvs.contains v then 0 else 1) := by
  intro vals
  induction vals with
  | nil => intro i pvs; simp [specRepeatsFrom]
  | cons w rest ih =>
    intro i pvs
    rw [specRepeatsFrom, List.filter_append, List.length_append]
    by_cases hw : w = v
    · rw [hw]
      by_cases hp : v ∈ pvs
      · rw [if_pos (by simp [hv, hp]), ih (i + 1) (v :: pvs)]
        simp [List.contains_cons, hp, List.count_cons, hv]
        try omega
      · rw [if_neg (by simp [hp]), ih (i + 1) (v :: pvs)]
        simp [List.contains_cons, List.count_cons, hv, hp]
        try omega
    · have hne : (w == v) = false := beq_eq_false_iff_ne.mpr hw
      have hvw : ¬(v = w) := fun h => hw h.symm
      rw [ih (i + 1) (w :: pvs)]
      by_cases hz : ¬w = "" ∧ w ∈ pvs <;>
        simp [hz, hne, hvw, List.contains_cons, List.count_cons]

/-- C6: confirmed.  Over a schema with one `unique` string field `f` and
rows sorted under a constant identifier, the validator's errors are
exactly one duplicate-value error per repeat occurrence of a non-empty
value, citing that occurrence's row — so a value occurring `k` times
yields `k - 1` errors, not one per pair. -/
theorem C6_unique_duplicates (f : String) (vals : List String)
    (hf : f ≠ "sparks_id")
    (hws : ∀ w ∈ vals, (strip w).length = w.data.length) :
    ((validate_csv noFS [] [(f, uniqRules)]
        (vals.map (fun w => [("sparks_id", "a"), (f, w)])) false).2
      = (if (specRepeats vals).isEmpty then Outcome.ok
         else Outcome.exitData ((specRepeats vals).map (fun p => dupMsg p.1 p.2 f))))
    ∧ ∀ w, w ≠ "" →
        ((specRepeats vals).filter (fun p => p.2 == w)).length = vals.count w - 1 := by
  constructor
  · rw [validate_csv]
    simp only [schemaCheck_uniq, List.isEmpty_nil, Bool.not_false, Bool.true_eq_false,
      if_false, Bool.false_eq_true]
    rw [rowLoop_uniqOnly noFS [] f hf vals 2 [] [] [] none (Or.inl rfl) hws
      (by intro x; simp [seenGet])]
    rw [specRepeats]
    simp only [List.nil_append]
    by_cases he : specRepeatsFrom 2 [] vals = [] <;> simp [he]
  · intro w hw
    rw [specRepeats, specRepeatsFrom_count w hw vals 2 []]
    simp

/-- C6 witness: values `[v, v, v, w]` produce exactly two duplicate
errors, at rows 3 and 4. -/
theorem C6_unique_duplicates_witness :
    ((validate_csv noFS [] [("f", uniqRules)]
        (["v", "v", "v", "w"].map (fun w => [("sparks_id", "a"), ("f", w)])) false).2
      = (if (specRepeats ["v", "v", "v", "w"]).isEmpty then Outcome.ok
         else Outcome.exitData ((specRepeats ["v", "v", "v", "w"]).map
           (fun p => dupMsg p.1 p.2 "f"))))
    ∧ ∀ w, w ≠ "" →
        ((specRepeats ["v", "v", "v", "w"]).filter (fun p => p.2 == w)).length
          = (["v", "v", "v", "w"] : List String).count w - 1 :=
  C6_unique_duplicates "f" ["v", "v", "v", "w"] (by decide) (by decide)

/-- The schema self-check passes when every field has a valid
non-reference type. -/
theorem schemaCheck_ok (fs : FS) :
    ∀ (schema : Schema) (cache : RefCache),
    (∀ fr ∈ schema, ∃ t, fr.2.type? = some t ∧ t ∈ VALID_TYPES ∧ t ≠ "reference") →
    schemaCheck fs schema cache = ([], cache) := by
  intro schema
  induction schema with
  | nil => intro cache _; rfl
  | cons fr rest ih =>
    intro cache h
    obtain ⟨field, rules⟩ := fr
    obtain ⟨t, ht, htv, htr⟩ := h (field, rules) (List.mem_cons_self _ _)
    have hb : (rules.type? == some "reference") = false := by
      rw [ht]
      exact beq_eq_false_iff_ne.mpr (by simpa using htr)
    have hc : VALID_TYPES.contains t = true := by
      fin_cases htv <;> rfl
    rw [schemaCheck, ht]
    simp [hc, hb, htv, htr, ih cache (fun g hg => h g (List.mem_cons_of_mem _ hg))]

/-- `validate_field` on a non-reference field returns normally and leaves
the cache untouched. -/
theorem validate_field_nonref (fs : FS) (cache : RefCache) (value : String)
    (rules : Rules) (f : String) (i : Nat) (h : rules.type? ≠ some "reference") :
    ∃ errs, validate_field fs cache value rules f i = (cache, .ok errs) := by
  have hb : (rules.type? == some "reference") = false := beq_eq_false_iff_ne.mpr h
  by_cases ha : (rules.active? == some false) = true
  · exact ⟨[], by rw [validate_field, if_pos ha]⟩
  · exact ⟨_, by rw [validate_field, if_neg ha, if_neg (by simp [hb])]⟩

/-- The per-field loop over a non-reference schema, outside fail-fast
mode, always continues. -/
theorem fieldLoop_total (fs : FS) (row : Row) (i : Nat) :
    ∀ (schema : Schema) (errors : List String) (seen : Seen) (cache : RefCache),
    (∀ fr ∈ schema, fr.2.type? ≠ some "reference") →
    ∃ errs seen', fieldLoop fs false row i schema errors seen cache
      = (cache, .cont errs seen') := by
  intro schema
  induction schema with
  | nil => intro errors seen cache _; exact ⟨errors, seen, rfl⟩
  | cons fr rest ih =>
    intro errors seen cache h
    obtain ⟨field, rules⟩ := fr
    obtain ⟨errs0, he⟩ := validate_field_nonref fs cache (getD row field "") rules field i
      (h (field, rules) (List.mem_cons_self _ _))
    rw [fieldLoop, he]
    simp only [Bool.false_and, Bool.false_eq_true, if_false]
    exact ih _ _ cache (fun g hg => h g (List.mem_cons_of_mem _ hg))

/-- A row without a `sparks_id` key makes the row loop raise: `TypeError`
at the sort comparison when the previous identifier is truthy, otherwise
`KeyError` when recording the previous identifier. -/
theorem rowLoop_missing_id (fs : FS) (schema : Schema)
    (hschema : ∀ fr ∈ schema, fr.2.type? ≠ some "reference") :
    ∀ (rows : List Row) (i : Nat) (prev : Option String) (errors : List String)
      (seen : Seen) (cache : RefCache),
    (∃ r ∈ rows, getOpt r "sparks_id" = none) →
    ∃ e, (rowLoop fs false schema rows i prev errors seen cache).2 = RowRes.exc e
      ∧ (e = PyErr.keyError "sparks_id" ∨ e = PyErr.typeError) := by
  intro rows
  induction rows with
  | nil =>
    intro i prev errors seen cache hbad
    obtain ⟨r, hr, _⟩ := hbad
    cases hr
  | cons row rest ih =>
    intro i prev errors seen cache hbad
    rw [rowLoop]
    obtain ⟨errs, seen', hfl⟩ := fieldLoop_total fs row i schema errors seen cache hschema
    cases hh : getOpt row "sparks_id" with
    | none =>
      cases ht : truthy prev
      · simp only [ht, Bool.false_eq_true, if_false, Bool.false_and, Bool.and_false,
          hfl, hh]
        exact ⟨.keyError "sparks_id", rfl, Or.inl rfl⟩
      · simp only [ht, eq_self_iff_true, if_true, hh]
        exact ⟨.typeError, rfl, Or.inr rfl⟩
    | some v =>
      have hbad' : ∃ r ∈ rest, getOpt r "sparks_id" = none := by
        obtain ⟨r, hr, hnone⟩ := hbad
        rcases List.mem_cons.mp hr with rfl | hr'
        · rw [hh] at hnone; cases hnone
        · exact ⟨r, hr', hnone⟩
      cases ht : truthy prev
      · simp only [ht, Bool.false_eq_true, if_false, Bool.false_and, Bool.and_false,
          hfl, hh]
        exact ih (i + 1) (some v) errs seen' cache hbad'
      · cases hlt : pyStrLt v (prev.getD "")
        · simp only [ht, eq_self_iff_true, if_true, hh, hlt, Bool.false_eq_true,
            if_false, Bool.false_and, Bool.and_false, hfl]
          exact ih (i + 1) (some v) errs seen' cache hbad'
        · obtain ⟨errs2, seen2, hfl2⟩ :=
            fieldLoop_total fs row i schema (errors ++ [sortMsg i v (prev.getD "")])
              seen cache hschema
          simp only [ht, eq_self_iff_true, if_true, hh, hlt, Bool.false_eq_true,
            if_false, Bool.false_and, Bool.and_false, Bool.true_and, hfl2]
          exact ih (i + 1) (some v) errs2 seen2 cache hbad'

/-- C10: confirmed.  For a valid non-reference schema and fail-fast off,
any data row whose `sparks_id` key is absent makes `validate_csv` raise an
uncaught exception — a `KeyError` when recording the previous identifier,
or a `TypeError` comparing `None` against a string in the sort check —
instead of reporting a validation error. -/
theorem C10_missing_id (fs : FS) (cache : RefCache) (schema : Schema) (rows : List Row)
    (hschema : ∀ fr ∈ schema, ∃ t, fr.2.type? = some t ∧ t ∈ VALID_TYPES ∧ t ≠ "reference")
    (hbad : ∃ r ∈ rows, getOpt r "sparks_id" = none) :
    ∃ e, (validate_csv fs cache schema rows false).2 = Outcome.exc e
      ∧ (e = PyErr.keyError "sparks_id" ∨ e = PyErr.typeError) := by
  have hnr : ∀ fr ∈ schema, fr.2.type? ≠ some "reference" := by
    intro fr hfr
    obtain ⟨t, ht, _, htr⟩ := hschema fr hfr
    rw [ht]
    intro hcon
    exact htr (by simpa using hcon)
  rw [validate_csv, schemaCheck_ok fs schema cache hschema]
  obtain ⟨e, he, hor⟩ := rowLoop_missing_id fs schema hnr rows 2 none [] [] cache hbad
  rcases hrl : rowLoop fs false schema rows 2 none [] [] cache with ⟨c', rr⟩
  rw [hrl] at he
  cases rr with
  | done errors => cases he
  | fast printed => cases he
  | exc e' =>
    refine ⟨e', ?_, by cases he; exact hor⟩
    simp [hrl]

/-- C10 witness: an empty schema and one row without `sparks_id`. -/
theorem C10_missing_id_witness :
    ∃ e, (validate_csv noFS [] [] [[("x", "1")]] false).2 = Outcome.exc e
      ∧ (e = PyErr.keyError "sparks_id" ∨ e = PyErr.typeError) :=
  C10_missing_id noFS [] [] [[("x", "1")]] (by simp)
    ⟨[("x", "1")], by simp, rfl⟩

/-- C5: the claim as stated is false: `src == dest` skips every pair of
structurally equal records, not only self-pairs, and equal records also
collapse to one top-level key.  For a list of two identical records (N=2)
the result has a single key with an empty map instead of two keys with
one entry each, although no filtering excludes anything. -/
theorem C5_counterexample :
    calculate_distances (fun _ _ => 0) [locA, locA] 0 5000 = .ok [("a", [])] := by
  rfl

/-- C8: the claim as stated is false: a malformed record is only detected
when it participates in an evaluated pair.  For a single-record list whose
record lacks both coordinate fields, `calculate_distances` returns a
normal result (the record paired only with itself, which is skipped
before the coordinates are read) instead of failing. -/
theorem C8_counterexample :
    calculate_distances (fun _ _ => 0) [[("sparks_id", "a")]] 0 5000
      = .ok [("a", [])] := by
  rfl

/-- C9: confirmed.  For the two-record list and an arbitrary computed
distance `d`, a pair is retained exactly when
`min_distance ≤ d ∧ d ≤ max_distance` (inclusive at both ends, the filter
applied to the raw distance), and the stored value is `int(d)`
(truncation toward zero); in particular a raw distance of 25 under the
range `[10, 20]` appears in no source's map. -/
theorem C9_filter_truncation (d mn mx : ℚ) :
    calculate_distances (fun _ _ => d) [locA, locB] mn mx
      = .ok [("a", if mn ≤ d ∧ d ≤ mx then [("b", truncQ d)] else []),
             ("b", if mn ≤ d ∧ d ≤ mx then [("a", truncQ d)] else [])]
    ∧ calculate_distances (fun _ _ => (25 : ℚ)) [locA, locB] 10 20
      = .ok [("a", []), ("b", [])] := by
  constructor
  · have e2 : (locA == locB) = false := rfl
    have e3 : (locB == locA) = false := rfl
    have g1 : getCoords locA = .ok (1, 2) := rfl
    have g2 : getCoords locB = .ok (3, 4) := rfl
    have ga : getOpt locA "sparks_id" = some "a" := rfl
    have gb : getOpt locB "sparks_id" = some "b" := rfl
    by_cases h : mn ≤ d ∧ d ≤ mx <;>
      simp [calculate_distances, srcLoop, destLoop, e2, e3, g1, g2, ga, gb, h,
        dictSet, sortByVal, insertByVal]
  · rfl

/-- A source with malformed coordinates fails its inner loop as soon as
any content-distinct destination occurs. -/
theorem destLoop_src_bad (hav : ℚ × ℚ → ℚ × ℚ → ℚ) (src : Row) (mn mx : ℚ)
    (e : PyErr) (hsrc : getCoords src = .error e) :
    ∀ (dests : List Row) (acc : List (String × ℤ)),
    (∃ dst ∈ dests, ¬ src = dst) →
    destLoop hav src mn mx dests acc = .error e := by
  intro dests
  induction dests with
  | nil =>
    rintro acc ⟨dst, hd, _⟩
    cases hd
  | cons dst rest ih =>
    intro acc hex
    rw [destLoop]
    by_cases hd : src = dst
    · rw [if_pos (by simp [hd])]
      obtain ⟨w, hw, hwne⟩ := hex
      rcases List.mem_cons.mp hw with rfl | hw'
      · exact absurd hd hwne
      · exact ih acc ⟨w, hw', hwne⟩
    · rw [if_neg (by simp [hd]), hsrc]

/-- A well-formed source still fails its inner loop when some
content-distinct destination has malformed coordinates. -/
theorem destLoop_dest_bad (hav : ℚ × ℚ → ℚ × ℚ → ℚ) (src : Row) (mn mx : ℚ)
    (c : ℚ × ℚ) (e : PyErr) (b : Row)
    (hsrc : getCoords src = .ok c) (hb : getCoords b = .error e) :
    ∀ (dests : List Row) (acc : List (String × ℤ)),
    b ∈ dests → ¬ src = b →
    ∃ e', destLoop hav src mn mx dests acc = .error e' := by
  intro dests
  induction dests with
  | nil => intro acc h _; cases h
  | cons dst rest ih =>
    intro acc hmem hne
    rw [destLoop]
    by_cases hd : src = dst
    · rw [if_pos (by simp [hd])]
      have hbr : b ∈ rest := by
        rcases List.mem_cons.mp hmem with rfl | h
        · exact absurd hd hne
        · exact h
      exact ih acc hbr hne
    · rw [if_neg (by simp [hd]), hsrc]
      cases hg : getCoords dst with
      | error e2 => exact ⟨e2, rfl⟩
      | ok cd =>
        dsimp only
        have hbr : b ∈ rest := by
          rcases List.mem_cons.mp hmem with rfl | h
          · rw [hb] at hg; cases hg
          · exact h
        by_cases hr : mn ≤ hav c cd ∧ hav c cd ≤ mx
        · rw [if_pos hr]
          cases hi : getOpt dst "sparks_id" with
          | none => exact ⟨.keyError "sparks_id", rfl⟩
          | some did => exact ih (dictSet acc did (truncQ (hav c cd))) hbr hne
        · rw [if_neg hr]
          exact ih acc hbr hne

/-- C8 amended: a missing or non-numeric coordinate aborts the whole
computation with an uncaught error — provided the malformed record takes
part in at least one evaluated pair, which holds whenever the list has at
least two pairwise content-distinct records.  (Per the counterexample, a
malformed record equal to every other record — e.g. a single-record
list — escapes detection.)  No partial result is returned. -/
theorem C8_amended (hav : ℚ × ℚ → ℚ × ℚ → ℚ) (locs : List Row) (mn mx : ℚ)
    (hdist : locs.Pairwise (fun a b => ¬ a = b)) (hlen : 2 ≤ locs.length)
    (hbad : ∃ b ∈ locs, ∃ e, getCoords b = .error e) :
    ∃ e', calculate_distances hav locs mn mx = .error e' := by
  obtain ⟨b, hbmem, e, hbe⟩ := hbad
  cases locs with
  | nil => simp at hlen
  | cons l1 rest =>
    cases rest with
    | nil => simp at hlen
    | cons l2 rest2 =>
      rw [calculate_distances, srcLoop]
      have hpair := (List.pairwise_cons.mp hdist).1
      cases hg : getCoords l1 with
      | error e1 =>
        have hex : ∃ dst ∈ (l1 :: l2 :: rest2), ¬ l1 = dst :=
          ⟨l2, by simp, hpair l2 (by simp)⟩
        rw [destLoop_src_bad hav l1 mn mx e1 hg _ [] hex]
        exact ⟨e1, rfl⟩
      | ok c =>
        have hne : ¬ l1 = b := by
          intro hcon
          rw [← hcon, hg] at hbe
          cases hbe
        obtain ⟨e', he'⟩ :=
          destLoop_dest_bad hav l1 mn mx c e b hg hbe (l1 :: l2 :: rest2) [] hbmem hne
        rw [he']
        exact ⟨e', rfl⟩

/-- C8 amended witness: two distinct records, the second lacking both
coordinate fields. -/
theorem C8_amended_witness :
    ∃ e', calculate_distances (fun _ _ => 0) [locA, [("sparks_id", "b")]] 0 5000
      = .error e' :=
  C8_amended (fun _ _ => 0) [locA, [("sparks_id", "b")]] 0 5000 (by decide) (by decide)
    ⟨[("sparks_id", "b")], by simp, .keyError "latitude_dd", rfl⟩

/-- Dict lookup on an association list (Python `m[k]` when present). -/
def lookupD {α : Type} (l : List (String × α)) (k : String) : Option α :=
  (l.find? (fun p => p.1 == k)).map (fun p => p.2)

/-- The record identifier (total form; rows of interest carry the key). -/
def idOf (r : Row) : String := (getOpt r "sparks_id").getD ""

/-- The record coordinates (total form; rows of interest parse). -/
def coordsOf (r : Row) : ℚ × ℚ :=
  match getCoords r with
  | .ok c => c
  | .error _ => (0, 0)

/-- The entries the inner loop produces for source `s` when no pair is
filtered out: one per content-distinct destination, in iteration order. -/
def innerPairs (hav : ℚ × ℚ → ℚ × ℚ → ℚ) (locs : List Row) (s : Row) :
    List (String × ℤ) :=
  (locs.filter (fun dst => !(s == dst))).map
    (fun dst => (idOf dst, truncQ (hav (coordsOf s) (coordsOf dst))))

/-- A successful lookup points at a member pair. -/
theorem lookupD_eq_some {α : Type} {l : List (String × α)} {k : String} {v : α}
    (h : lookupD l k = some v) : (k, v) ∈ l := by
  rw [lookupD] at h
  cases hf : l.find? (fun p => p.1 == k) with
  | none => rw [hf] at h; cases h
  | some p =>
    rw [hf] at h
    have hm := List.mem_of_find?_eq_some hf
    have hp := List.find?_some hf
    have h1 : p.1 = k := by simpa using hp
    cases h
    have : p = (p.1, p.2) := rfl
    rw [this, h1] at hm
    exact hm

/-- With duplicate-free keys, membership determines the lookup. -/
theorem mem_lookupD {α : Type} {l : List (String × α)} {k : String} {v : α}
    (hn : (l.map Prod.fst).Nodup) (h : (k, v) ∈ l) : lookupD l k = some v := by
  induction l with
  | nil => cases h
  | cons x xs ih =>
    rw [List.map_cons, List.nodup_cons] at hn
    rcases List.mem_cons.mp h with rfl | h'
    · simp [lookupD, List.find?_cons]
    · have hk : k ∈ xs.map Prod.fst := List.mem_map.mpr ⟨(k, v), h', rfl⟩
      have hne : (x.1 == k) = false :=
        beq_eq_false_iff_ne.mpr (fun hcon => hn.1 (hcon ▸ hk))
      rw [lookupD, List.find?_cons_of_neg _ (by simp [hne])]
      exact ih hn.2 h'

/-- An absent key looks up to nothing. -/
theorem lookupD_none {α : Type} {l : List (String × α)} {k : String}
    (h : k ∉ l.map Prod.fst) : lookupD l k = none := by
  induction l with
  | nil => rfl
  | cons x xs ih =>
    rw [List.map_cons, List.mem_cons] at h
    push_neg at h
    have hne : (x.1 == k) = false := beq_eq_false_iff_ne.mpr (fun hcon => h.1 hcon.symm)
    rw [lookupD, List.find?_cons_of_neg _ (by simp [hne])]
    exact ih h.2

/-- Lookup over a permutation of a duplicate-free-keyed association list
is unchanged. -/
theorem lookupD_perm {α : Type} {l l' : List (String × α)} (hp : l.Perm l')
    (hn : (l.map Prod.fst).Nodup) (k : String) : lookupD l k = lookupD l' k := by
  have hn' : (l'.map Prod.fst).Nodup := ((hp.map Prod.fst).nodup_iff).mp hn
  cases hv : lookupD l k with
  | some v =>
    exact (mem_lookupD hn' (hp.mem_iff.mp (lookupD_eq_some hv))).symm
  | none =>
    have hk : k ∉ l.map Prod.fst := by
      intro hmem
      obtain ⟨p, hpm, hp1⟩ := List.mem_map.mp hmem
      have : (k, p.2) ∈ l := by
        have : p = (k, p.2) := by rw [← hp1]
        rw [← this]
        exact hpm
      rw [mem_lookupD hn this] at hv
      cases hv
    exact (lookupD_none (fun hmem => hk ((hp.map Prod.fst).mem_iff.mpr hmem))).symm

/-- Stable insertion produces a permutation of consing. -/
theorem insertByVal_perm (x : String × ℤ) :
    ∀ l : List (String × ℤ), (insertByVal x l).Perm (x :: l) := by
  intro l
  induction l with
  | nil => rfl
  | cons y rest ih =>
    rw [insertByVal]
    by_cases h : y.2 ≤ x.2
    · rw [if_pos h]
      exact (ih.cons y).trans (List.Perm.swap x y rest)
    · rw [if_neg h]

/-- The embedded stable sort permutes its input. -/
theorem sortByVal_perm (l : List (String × ℤ)) : (sortByVal l).Perm l := by
  suffices h : ∀ (l acc : List (String × ℤ)),
      (l.foldl (fun acc x => insertByVal x acc) acc).Perm (acc ++ l) by
    simpa using h l []
  intro l
  induction l with
  | nil => intro acc; simp
  | cons x rest ih =>
    intro acc
    rw [List.foldl_cons]
    exact ((ih (insertByVal x acc)).trans
      (((insertByVal_perm x acc).append_right rest).trans List.perm_middle.symm))

/-- Sorting preserves the entry count. -/
theorem sortByVal_length (l : List (String × ℤ)) : (sortByVal l).length = l.length :=
  (sortByVal_perm l).length_eq

/-- Appending a fresh key is what dict assignment does. -/
theorem dictSet_fresh {α : Type} (m : List (String × α)) (k : String) (v : α)
    (h : m.any (fun p => p.1 == k) = false) : dictSet m k v = m ++ [(k, v)] := by
  rw [dictSet, if_neg (by simp [h])]

/-- Lookup in a map built by a key function over a duplicate-free index
list returns the image of the looked-up element. -/
theorem lookupD_map_key {α : Type} (g : Row → α) :
    ∀ (l : List Row) (b : Row), (l.map idOf).Nodup → b ∈ l →
    lookupD (l.map (fun d => (idOf d, g d))) (idOf b) = some (g b) := by
  intro l
  induction l with
  | nil => intro b _ h; cases h
  | cons d rest ih =>
    intro b hn hb
    rw [List.map_cons, List.nodup_cons] at hn
    rcases List.mem_cons.mp hb with rfl | hb'
    · simp [lookupD, List.find?_cons]
    · have hk : idOf b ∈ rest.map idOf := List.mem_map.mpr ⟨b, hb', rfl⟩
      have hne : (idOf d == idOf b) = false :=
        beq_eq_false_iff_ne.mpr (fun hcon => hn.1 (hcon ▸ hk))
      rw [List.map_cons, lookupD, List.find?_cons_of_neg _ (by simp [hne])]
      exact ih b hn.2 hb'

/-- Full characterization of the inner loop when nothing is filtered out:
one entry per content-distinct destination, in iteration order, holding
the truncated distance. -/
theorem destLoop_ok (hav : ℚ × ℚ → ℚ × ℚ → ℚ) (src : Row) (mn mx : ℚ)
    (hsrc : getCoords src = .ok (coordsOf src)) :
    ∀ (dests : List Row) (acc : List (String × ℤ)),
    (∀ dst ∈ dests, getCoords dst = .ok (coordsOf dst)) →
    (∀ dst ∈ dests, getOpt dst "sparks_id" = some (idOf dst)) →
    (∀ dst ∈ dests, mn ≤ hav (coordsOf src) (coordsOf dst)
        ∧ hav (coordsOf src) (coordsOf dst) ≤ mx) →
    ((dests.map idOf).Nodup) →
    (∀ dst ∈ dests, acc.any (fun p => p.1 == idOf dst) = false) →
    destLoop hav src mn mx dests acc
      = .ok (acc ++ (dests.filter (fun dst => !(src == dst))).map
          (fun dst => (idOf dst, truncQ (hav (coordsOf src) (coordsOf dst))))) := by
  intro dests
  induction dests with
  | nil =>
    intro acc _ _ _ _ _
    simp [destLoop]
  | cons dst rest ih =>
    intro acc hco hid hr hn hfresh
    have hn' : (rest.map idOf).Nodup := by
      rw [List.map_cons, List.nodup_cons] at hn
      exact hn.2
    have hco' := fun d hd => hco d (List.mem_cons_of_mem _ hd)
    have hid' := fun d hd => hid d (List.mem_cons_of_mem _ hd)
    have hr' := fun d hd => hr d (List.mem_cons_of_mem _ hd)
    rw [destLoop]
    by_cases hd : src = dst
    · rw [if_pos (by simp [hd])]
      rw [ih acc hco' hid' hr' hn' (fun d hdm => hfresh d (List.mem_cons_of_mem _ hdm))]
      have hp : (!(src == dst)) = false := by simp [hd]
      simp [List.filter_cons, hp]
    · have hb : (src == dst) = false := beq_eq_false_iff_ne.mpr hd
      rw [if_neg (by simp [hb]), hsrc, hco dst (List.mem_cons_self _ _)]
      dsimp only
      rw [if_pos (hr dst (List.mem_cons_self _ _)), hid dst (List.mem_cons_self _ _)]
      dsimp only
      rw [dictSet_fresh acc _ _ (hfresh dst (List.mem_cons_self _ _))]
      rw [ih (acc ++ [(idOf dst, truncQ (hav (coordsOf src) (coordsOf dst)))])
        hco' hid' hr' hn' ?hfr]
      case hfr =>
        intro d hdm
        rw [List.any_append]
        have h1 := hfresh d (List.mem_cons_of_mem _ hdm)
        have h2 : (idOf dst == idOf d) = false := by
          rw [List.map_cons, List.nodup_cons] at hn
          exact beq_eq_false_iff_ne.mpr
            (fun hcon => hn.1 (hcon ▸ List.mem_map.mpr ⟨d, hdm, rfl⟩))
        simp [h1, h2]
      have hp : (!(src == dst)) = true := by simp [hb]
      simp [List.filter_cons, hp, List.append_assoc]

/-- Full characterization of the outer loop when nothing is filtered out:
one entry per source, keyed by its identifier, holding the sorted inner
map. -/
theorem srcLoop_ok (hav : ℚ × ℚ → ℚ × ℚ → ℚ) (locs : List Row) (mn mx : ℚ)
    (hco : ∀ l ∈ locs, getCoords l = .ok (coordsOf l))
    (hid : ∀ l ∈ locs, getOpt l "sparks_id" = some (idOf l))
    (hrange : ∀ s ∈ locs, ∀ d ∈ locs,
      mn ≤ hav (coordsOf s) (coordsOf d) ∧ hav (coordsOf s) (coordsOf d) ≤ mx)
    (hnod : (locs.map idOf).Nodup) :
    ∀ (srcs : List Row) (acc : List (String × List (String × ℤ))),
    (∀ s ∈ srcs, s ∈ locs) →
    ((srcs.map idOf).Nodup) →
    (∀ s ∈ srcs, acc.any (fun p => p.1 == idOf s) = false) →
    srcLoop hav locs mn mx srcs acc
      = .ok (acc ++ srcs.map (fun s => (idOf s, sortByVal (innerPairs hav locs s)))) := by
  intro srcs
  induction srcs with
  | nil =>
    intro acc _ _ _
    simp [srcLoop]
  | cons s rest ih =>
    intro acc hsub hnr hfresh
    have hs : s ∈ locs := hsub s (List.mem_cons_self _ _)
    rw [srcLoop]
    rw [destLoop_ok hav s mn mx (hco s hs) locs []
      hco hid (fun d hd => hrange s hs d hd) hnod (fun d _ => rfl)]
    dsimp only
    rw [hid s hs]
    dsimp only
    rw [dictSet_fresh acc _ _ (hfresh s (List.mem_cons_self _ _))]
    rw [List.nil_append]
    rw [show List.map (fun dst => (idOf dst, truncQ (hav (coordsOf s) (coordsOf dst))))
          (List.filter (fun dst => !(s == dst)) locs) = innerPairs hav locs s from rfl]
    rw [ih (acc ++ [(idOf s, sortByVal (innerPairs hav locs s))])
      (fun d hd => hsub d (List.mem_cons_of_mem _ hd))
      (by rw [List.map_cons, List.nodup_cons] at hnr; exact hnr.2) ?hfr]
    case hfr =>
      intro d hdm
      rw [List.any_append]
      have h1 := hfresh d (List.mem_cons_of_mem _ hdm)
      have h2 : (idOf s == idOf d) = false := by
        rw [List.map_cons, List.nodup_cons] at hnr
        exact beq_eq_false_iff_ne.mpr
          (fun hcon => hnr.1 (hcon ▸ List.mem_map.mpr ⟨d, hdm, rfl⟩))
      simp [h1, h2]
    simp [List.append_assoc]

/-- C5 amended: `calculate_distances` considers every ordered pair of
records with distinct dict contents (structurally equal records — not just
self-pairs — are skipped, and duplicate identifiers would collapse keys,
so distinctness is required).  For records with pairwise-distinct
identifiers whose coordinates parse, when every pairwise distance passes
the filter: every record appears as a top-level key in input order, each
inner map has exactly N−1 entries, and looked-up distances are symmetric,
`dist(A,B) = dist(B,A)`, by symmetry of the distance function. -/
theorem C5_amended (hav : ℚ × ℚ → ℚ × ℚ → ℚ) (locs : List Row) (mn mx : ℚ)
    (hco : ∀ l ∈ locs, getCoords l = .ok (coordsOf l))
    (hid : ∀ l ∈ locs, getOpt l "sparks_id" = some (idOf l))
    (hrange : ∀ s ∈ locs, ∀ d ∈ locs,
      mn ≤ hav (coordsOf s) (coordsOf d) ∧ hav (coordsOf s) (coordsOf d) ≤ mx)
    (hnod : (locs.map idOf).Nodup)
    (hsym : ∀ p q, hav p q = hav q p) :
    ∃ m, calculate_distances hav locs mn mx = .ok m
      ∧ m.map Prod.fst = locs.map idOf
      ∧ (∀ e ∈ m, e.2.length = locs.length - 1)
      ∧ (∀ a ∈ locs, ∀ b ∈ locs, ¬ a = b →
          ∃ ma mb dab dba,
            lookupD m (idOf a) = some ma ∧ lookupD ma (idOf b) = some dab
            ∧ lookupD m (idOf b) = some mb ∧ lookupD mb (idOf a) = some dba
            ∧ dab = dba) := by
  have hnd : locs.Nodup := List.Nodup.of_map idOf hnod
  have hinnerKeys : ∀ s, (((locs.filter (fun dst => !(s == dst))).map idOf)).Nodup :=
    fun s => List.Nodup.sublist (List.Sublist.map idOf (List.filter_sublist locs)) hnod
  refine ⟨locs.map (fun s => (idOf s, sortByVal (innerPairs hav locs s))), ?_, ?_, ?_, ?_⟩
  · rw [calculate_distances]
    exact srcLoop_ok hav locs mn mx hco hid hrange hnod locs []
      (fun s hs => hs) hnod (fun s _ => rfl)
  · rw [List.map_map]
    rfl
  · intro e he
    obtain ⟨s, hsm, rfl⟩ := List.mem_map.mp he
    show (sortByVal (innerPairs hav locs s)).length = locs.length - 1
    rw [sortByVal_length, innerPairs, List.length_map]
    have h1 : locs.filter (fun dst => !(s == dst)) = locs.erase s := by
      rw [List.Nodup.erase_eq_filter hnd]
      refine (List.filter_congr ?_).symm
      intro a _
      by_cases h : s = a
      · simp [h]
      · simp [beq_eq_false_iff_ne.mpr h, show a ≠ s from fun hc => h hc.symm]
    rw [h1]
    exact List.length_erase_of_mem hsm
  · intro a ha b hb hne
    have hne' : ¬ b = a := fun h => hne h.symm
    have hlookA :
        lookupD (locs.map (fun s => (idOf s, sortByVal (innerPairs hav locs s)))) (idOf a)
          = some (sortByVal (innerPairs hav locs a)) :=
      lookupD_map_key _ locs a hnod ha
    have hlookB :
        lookupD (locs.map (fun s => (idOf s, sortByVal (innerPairs hav locs s)))) (idOf b)
          = some (sortByVal (innerPairs hav locs b)) :=
      lookupD_map_key _ locs b hnod hb
    have hkeys : ∀ s, ((innerPairs hav locs s).map Prod.fst).Nodup := by
      intro s
      rw [innerPairs, List.map_map]
      exact hinnerKeys s
    have hsortA : ∀ k, lookupD (sortByVal (innerPairs hav locs a)) k
        = lookupD (innerPairs hav locs a) k :=
      fun k => (lookupD_perm (sortByVal_perm (innerPairs hav locs a)).symm (hkeys a) k).symm
    have hsortB : ∀ k, lookupD (sortByVal (innerPairs hav locs b)) k
        = lookupD (innerPairs hav locs b) k :=
      fun k => (lookupD_perm (sortByVal_perm (innerPairs hav locs b)).symm (hkeys b) k).symm
    have hinA : lookupD (innerPairs hav locs a) (idOf b)
        = some (truncQ (hav (coordsOf a) (coordsOf b))) := by
      rw [innerPairs]
      exact lookupD_map_key _ _ b (hinnerKeys a)
        (List.mem_filter.mpr ⟨hb, by simp [beq_eq_false_iff_ne.mpr hne]⟩)
    have hinB : lookupD (innerPairs hav locs b) (idOf a)
        = some (truncQ (hav (coordsOf b) (coordsOf a))) := by
      rw [innerPairs]
      exact lookupD_map_key _ _ a (hinnerKeys b)
        (List.mem_filter.mpr ⟨ha, by simp [beq_eq_false_iff_ne.mpr hne']⟩)
    refine ⟨sortByVal (innerPairs hav locs a), sortByVal (innerPairs hav locs b),
      truncQ (hav (coordsOf a) (coordsOf b)), truncQ (hav (coordsOf b) (coordsOf a)),
      hlookA, ?_, hlookB, ?_, ?_⟩
    · rw [hsortA, hinA]
    · rw [hsortB, hinB]
    · rw [hsym]

/-- C5 amended, witness: two distinct records, constant distance 15
within the range `[0, 5000]`. -/
theorem C5_amended_witness :
    ∃ m, calculate_distances (fun _ _ => (15 : ℚ)) [locA, locB] 0 5000 = .ok m
      ∧ m.map Prod.fst = [locA, locB].map idOf
      ∧ (∀ e ∈ m, e.2.length = ([locA, locB] : List Row).length - 1)
      ∧ (∀ a ∈ ([locA, locB] : List Row), ∀ b ∈ ([locA, locB] : List Row), ¬ a = b →
          ∃ ma mb dab dba,
            lookupD m (idOf a) = some ma ∧ lookupD ma (idOf b) = some dab
            ∧ lookupD m (idOf b) = some mb ∧ lookupD mb (idOf a) = some dba
            ∧ dab = dba) :=
  C5_amended (fun _ _ => (15 : ℚ)) [locA, locB] 0 5000
    (by
      intro l hl
      rcases List.mem_cons.mp hl with rfl | hl
      · rfl
      · rcases List.mem_cons.mp hl with rfl | hl
        · rfl
        · cases hl)
    (by
      intro l hl
      rcases List.mem_cons.mp hl with rfl | hl
      · rfl
      · rcases List.mem_cons.mp hl with rfl | hl
        · rfl
        · cases hl)
    (by
      intro s hs d hd
      constructor <;> norm_num)
    (by decide)
    (fun p q => rfl)

end SparksTools
